import Mathlib

/-!
Verification of the `ckanutils` sync library against its specification.

The Python source is shallowly embedded: pure helpers from
`ckanutils/utils.py` become Lean functions on lists; the remote CKAN
API calls made by the `CKAN` facade (`ckanutils.py`) and by the
datastore update workflow (`ckanutils/datastorer.py`) become explicit
outcome parameters, and the workflow itself becomes a function that
returns the trace of remote calls it performs together with its exit
outcome.
-/

namespace Ckanutils

/-! ### `chunk` (ckanutils/utils.py, lines 553-580)

`chunk(iterable, chunksize=0, start=0, stop=None)` first applies
`islice(iter(iterable), start, stop)`; when `chunksize` is truthy it
groups the result into successive `chunksize`-long slices, stopping at
the first empty slice (`takewhile(bool, ...)`); otherwise it returns a
single chunk holding everything. -/

/-- The repeated `list(islice(i, chunksize))` / `takewhile(bool, ...)`
loop: successive `c`-long pieces of `l`, stopping at the first empty
piece.  (With `c = 0` the very first slice is empty, so the result is
empty; the Python code only reaches this loop when `chunksize` is
truthy.) -/
def chunksOf (c : Nat) (l : List α) : List (List α) :=
  if _hc : c = 0 then []
  else
    match l with
    | [] => []
    | x :: xs => ((x :: xs).take c) :: chunksOf c ((x :: xs).drop c)
termination_by l.length
decreasing_by
  simp only [List.length_drop, List.length_cons]
  omega

/-- `itertools.islice(iter(l), start, stop)`. -/
def islice (l : List α) (start : Nat) (stop : Option Nat) : List α :=
  match stop with
  | none => l.drop start
  | some s => (l.take s).drop start

/-- `chunk` from ckanutils/utils.py. -/
def chunk (l : List α) (chunksize : Nat) (start : Nat) (stop : Option Nat) :
    List (List α) :=
  let i := islice l start stop
  if chunksize ≠ 0 then chunksOf chunksize i else [i]

theorem chunksOf_nil (c : Nat) : chunksOf c ([] : List α) = [] := by
  rw [chunksOf]
  split <;> rfl

theorem chunksOf_cons (c : Nat) (hc : c ≠ 0) (x : α) (xs : List α) :
    chunksOf c (x :: xs) =
      ((x :: xs).take c) :: chunksOf c ((x :: xs).drop c) := by
  rw [chunksOf, dif_neg hc]

theorem chunksOf_flatten (c : Nat) (hc : c ≠ 0) (l : List α) :
    (chunksOf c l).flatten = l := by
  suffices h : ∀ n (l : List α), l.length = n → (chunksOf c l).flatten = l from
    h l.length l rfl
  intro n
  induction n using Nat.strong_induction_on with
  | _ n ih =>
      intro l hn
      match l with
      | [] => simp [chunksOf_nil]
      | x :: xs =>
          rw [chunksOf_cons c hc]
          have hlt : ((x :: xs).drop c).length < n := by
            simp only [List.length_drop, List.length_cons] at *
            omega
          rw [List.flatten_cons, ih _ hlt _ rfl, List.take_append_drop]

theorem chunksOf_mem_shape (c : Nat) (l : List α) (ch : List α)
    (hm : ch ∈ chunksOf c l) : ch ≠ [] ∧ ch.length ≤ c := by
  suffices h :
      ∀ n (l : List α), l.length = n → ch ∈ chunksOf c l →
        ch ≠ [] ∧ ch.length ≤ c from h l.length l rfl hm
  intro n
  induction n using Nat.strong_induction_on with
  | _ n ih =>
      intro l hn hm
      match l with
      | [] => simp [chunksOf_nil] at hm
      | x :: xs =>
          by_cases hc : c = 0
          · subst hc
            rw [chunksOf] at hm
            simp at hm
          · rw [chunksOf_cons c hc] at hm
            rcases List.mem_cons.mp hm with heq | hmem
            · subst heq
              exact ⟨by simp [hc], List.length_take_le c (x :: xs)⟩
            · have hlt : ((x :: xs).drop c).length < n := by
                simp only [List.length_drop, List.length_cons] at *
                omega
              exact ih _ hlt _ rfl hmem

theorem chunksOf_arg_nil (c : Nat) (l : List α) (h : chunksOf c l ≠ []) :
    l ≠ [] := by
  intro hl
  rw [hl, chunksOf_nil] at h
  exact h rfl

theorem chunksOf_not_last_length (c : Nat) (l : List α) (i : Nat)
    (ch : List α) (h : i + 1 < (chunksOf c l).length)
    (hg : (chunksOf c l)[i]? = some ch) : ch.length = c := by
  suffices hs :
      ∀ n (l : List α), l.length = n → ∀ i,
        i + 1 < (chunksOf c l).length → (chunksOf c l)[i]? = some ch →
        ch.length = c from hs l.length l rfl i h hg
  intro n
  induction n using Nat.strong_induction_on with
  | _ n ih =>
      intro l hn i h hg
      match l with
      | [] => simp [chunksOf_nil] at h
      | x :: xs =>
          by_cases hc : c = 0
          · subst hc
            rw [chunksOf] at h
            simp at h
          · rw [chunksOf_cons c hc] at h hg
            have hlt : ((x :: xs).drop c).length < n := by
              simp only [List.length_drop, List.length_cons] at *
              omega
            match i with
            | 0 =>
                simp only [List.getElem?_cons_zero, Option.some.injEq] at hg
                subst hg
                have hrest : chunksOf c ((x :: xs).drop c) ≠ [] := by
                  intro hrn
                  rw [hrn] at h
                  simp at h
                have hdrop := chunksOf_arg_nil c _ hrest
                have h1 : 0 < ((x :: xs).drop c).length :=
                  List.length_pos.mpr hdrop
                rw [List.length_drop] at h1
                simp only [List.length_take]
                omega
            | j + 1 =>
                simp only [List.getElem?_cons_succ] at hg
                have h2 : j + 1 < (chunksOf c ((x :: xs).drop c)).length := by
                  simpa using h
                exact ih _ hlt _ rfl j h2 hg

/-! ### `hash_file` (ckanutils/utils.py, lines 583-622)

`hash_file(filepath, hasher='sha1', chunksize=0)` builds a hashlib
object, then either feeds it the whole file (`chunksize == 0`) or
feeds it successive `chunksize`-byte reads until EOF, and returns
`hasher.hexdigest()`.

A hashlib object is embedded by its essential streaming property: its
state is the list of bytes fed so far (`update` appends), and
`hexdigest` is an arbitrary function of the fed bytes — one such
function per algorithm, producing a lowercase hex string for the real
library.  A file is its list of bytes. -/

/-- `hasher.update(data)`: the streamed state grows by `data`. -/
def hasherUpdate (st : List Nat) (data : List Nat) : List Nat := st ++ data

/-- `hash_file` from ckanutils/utils.py.  `hexdigest` is the digest
function of the chosen algorithm; the `f.read(chunksize)` loop yields
exactly `chunksOf chunksize data`. -/
def hash_file (hexdigest : List Nat → String) (data : List Nat)
    (chunksize : Nat) : String :=
  let fed :=
    if chunksize ≠ 0 then (chunksOf chunksize data).foldl hasherUpdate []
    else hasherUpdate [] data
  hexdigest fed

theorem foldl_hasherUpdate (acc : List Nat) (cs : List (List Nat)) :
    cs.foldl hasherUpdate acc = acc ++ cs.flatten := by
  induction cs generalizing acc with
  | nil => simp [List.flatten]
  | cons c cs ih => simp [List.foldl_cons, hasherUpdate, ih]

theorem hash_file_eq_digest (hexdigest : List Nat → String)
    (data : List Nat) (chunksize : Nat) :
    hash_file hexdigest data chunksize = hexdigest data := by
  unfold hash_file
  by_cases hc : chunksize = 0
  · simp [hc, hasherUpdate]
  · simp only [hc, ne_eq, not_false_eq_true, if_pos, if_true]
    rw [foldl_hasherUpdate, List.nil_append, chunksOf_flatten chunksize hc]

/-- C4: for every file (byte list), hash algorithm (digest function),
and any two chunk sizes, `hash_file` returns the same digest: the
result depends only on the file's bytes and the algorithm, never on
the chunk size. -/
theorem hash_file_chunksize_independent (hexdigest : List Nat → String)
    (data : List Nat) (c1 c2 : Nat) :
    hash_file hexdigest data c1 = hash_file hexdigest data c2 := by
  rw [hash_file_eq_digest, hash_file_eq_digest]

/-- C9: with `start = 0` and `stop` unset, concatenating the chunks
produced by `chunk` restores exactly the original list, and when the
chunk size is positive every chunk is non-empty of length at most
`chunksize`, with every chunk but possibly the last of length exactly
`chunksize`. -/
theorem chunk_partition (l : List α) (c : Nat) :
    (chunk l c 0 none).flatten = l ∧
      (c ≠ 0 → ∀ ch ∈ chunk l c 0 none, ch ≠ [] ∧ ch.length ≤ c) ∧
      (c ≠ 0 → ∀ i ch, i + 1 < (chunk l c 0 none).length →
        (chunk l c 0 none)[i]? = some ch → ch.length = c) := by
  refine ⟨?_, ?_, ?_⟩
  · unfold chunk islice
    by_cases hc : c = 0
    · simp [hc]
    · simp only [hc, ne_eq, not_false_eq_true, if_pos, if_true, List.drop_zero]
      exact chunksOf_flatten c hc l
  · intro hc ch hm
    unfold chunk islice at hm
    simp only [hc, ne_eq, not_false_eq_true, if_pos, if_true,
      List.drop_zero] at hm
    exact chunksOf_mem_shape c l ch hm
  · intro hc i ch h hg
    have hrw : chunk l c 0 none = chunksOf c l := by
      unfold chunk islice
      simp [hc]
    rw [hrw] at h hg
    exact chunksOf_not_last_length c l i ch h hg

/-- Concrete instance for C9 at `l = [1,2,3,4,5]`, `c = 2`, exercising
the hypotheses of `chunk_partition`. -/
theorem chunk_partition_witness :
    (chunk [1, 2, 3, 4, 5] 2 0 none).flatten = [1, 2, 3, 4, 5] ∧
      ([1, 2] ≠ [] ∧ ([1, 2] : List Nat).length ≤ 2) ∧
      ([3, 4] : List Nat).length = 2 := by
  refine ⟨(chunk_partition [1, 2, 3, 4, 5] 2).1, ?_, ?_⟩
  · refine (chunk_partition [1, 2, 3, 4, 5] 2).2.1 (by decide) [1, 2] ?_
    simp [chunk, islice, chunksOf]
  · refine (chunk_partition [1, 2, 3, 4, 5] 2).2.2 (by decide) 1 [3, 4] ?_ ?_
    · simp [chunk, islice, chunksOf]
    · simp [chunk, islice, chunksOf]

/-! ### `gen_fields` (ckanutils/utils.py, lines 282-301)

For each name in order: when `type_cast` is truthy and `'date' in
name` the yielded type is `'date'`; otherwise when `type_cast` is
truthy and `'value' in name` it is `'float'`; otherwise `'text'`.
Both membership tests are Python's case-sensitive substring test. -/

/-- Python's `needle in hay` for strings: substring containment,
case-sensitive. -/
def strContains (hay needle : String) : Bool :=
  decide (needle.toList <:+: hay.toList)

/-- A datastore field: `{'id': name, 'type': t}`. -/
structure Field where
  id : String
  type : String
deriving DecidableEq, Repr

/-- `gen_fields` from ckanutils/utils.py. -/
def gen_fields (names : List String) (type_cast : Bool) : List Field :=
  names.map fun name =>
    if type_cast && strContains name "date" then ⟨name, "date"⟩
    else if type_cast && strContains name "value" then ⟨name, "float"⟩
    else ⟨name, "text"⟩

/-- C5 counterexample: on header `[id, value, date]` with type-casting
on, `gen_fields` types `date` as `"date"`, not `"timestamp"` as the
claim states; and the `value` test is case-sensitive, so `"VALUE"` is
typed `"text"`, not `"float"`. -/
theorem gen_fields_claim_counterexample :
    gen_fields ["id", "value", "date"] true ≠
      [⟨"id", "text"⟩, ⟨"value", "float"⟩, ⟨"date", "timestamp"⟩] ∧
      gen_fields ["VALUE"] true = [⟨"VALUE", "text"⟩] := by
  decide

/-- C5 (amended): with type-casting disabled every field is typed
`"text"`; input order and names are preserved; a name containing the
substring `"date"` (case-sensitively) is typed `"date"`, else one
containing `"value"` (case-sensitively) is typed `"float"`, else
`"text"`; in particular `[id, value, date]` with type-casting on
yields types `[text, float, date]`. -/
theorem gen_fields_types (names : List String) :
    gen_fields names false = names.map (fun n => ⟨n, "text"⟩) ∧
      (gen_fields names true).map Field.id = names ∧
      gen_fields ["id", "value", "date"] true =
        [⟨"id", "text"⟩, ⟨"value", "float"⟩, ⟨"date", "date"⟩] ∧
      (∀ f ∈ gen_fields names true,
        (strContains f.id "date" = true → f.type = "date") ∧
        (strContains f.id "date" = false → strContains f.id "value" = true →
          f.type = "float") ∧
        (strContains f.id "date" = false → strContains f.id "value" = false →
          f.type = "text")) := by
  refine ⟨?_, ?_, by decide, ?_⟩
  · simp [gen_fields]
  · rw [gen_fields, List.map_map]
    conv_rhs => rw [← List.map_id names]
    apply List.map_congr_left
    intro n _
    simp only [Function.comp_apply, id]
    split
    · rfl
    · split <;> rfl
  · intro f hf
    simp only [gen_fields, List.mem_map] at hf
    obtain ⟨name, _, hfeq⟩ := hf
    by_cases h1 : strContains name "date"
    · rw [if_pos (by simp [h1])] at hfeq
      subst hfeq
      simp [h1]
    · by_cases h2 : strContains name "value"
      · rw [if_neg (by simp [h1]), if_pos (by simp [h2])] at hfeq
        subst hfeq
        simp only [Bool.not_eq_true] at h1
        simp [h1, h2]
      · rw [if_neg (by simp [h1]), if_neg (by simp [h2])] at hfeq
        subst hfeq
        simp only [Bool.not_eq_true] at h1 h2
        simp [h1, h2]

/-- Concrete instance for C5 at `names = ["a", "some_value"]`,
exercising the per-field clauses of `gen_fields_types`. -/
theorem gen_fields_types_witness :
    gen_fields ["a", "some_value"] false =
      [⟨"a", "text"⟩, ⟨"some_value", "text"⟩] ∧
      Field.type ⟨"some_value", "float"⟩ = "float" := by
  refine ⟨(gen_fields_types ["a", "some_value"]).1, ?_⟩
  exact (((gen_fields_types ["a", "some_value"]).2.2.2 ⟨"some_value", "float"⟩
    (by decide)).2.1 (by decide)) (by decide)

/-- C10: with type-casting enabled, `"date"` takes precedence over
`"value"`: every yielded field whose name contains both substrings is
typed `"date"`, never `"float"`. -/
theorem gen_fields_date_precedence (names : List String) :
    ∀ f ∈ gen_fields names true,
      strContains f.id "date" = true → strContains f.id "value" = true →
      f.type = "date" ∧ f.type ≠ "float" := by
  intro f hf hd _
  simp only [gen_fields, List.mem_map] at hf
  obtain ⟨name, _, hfeq⟩ := hf
  by_cases h1 : strContains name "date"
  · rw [if_pos (by simp [h1])] at hfeq
    subst hfeq
    refine ⟨rfl, ?_⟩
    simp
  · exfalso
    by_cases h2 : strContains name "value" <;>
      [rw [if_neg (by simp [h1]), if_pos (by simp [h2])] at hfeq;
        rw [if_neg (by simp [h1]), if_neg (by simp [h2])] at hfeq] <;>
      subst hfeq <;> simp_all

/-- Concrete instance for C10 at the field name `"value_date"`. -/
theorem gen_fields_date_precedence_witness :
    Field.type ⟨"value_date", "date"⟩ = "date" ∧
      Field.type ⟨"value_date", "date"⟩ ≠ "float" :=
  gen_fields_date_precedence ["value_date"] ⟨"value_date", "date"⟩
    (by decide) (by decide) (by decide)

/-! ### `CKAN.insert_records` (ckanutils.py, lines 235-302)

The records are first passed through `pr.json_recode` (a value-level
re-encoding that preserves the list's length and order; records stay
abstract here), then grouped with `chunk(recoded, chunksize,
start=start, stop=stop)`.  For each chunk the remote
`datastore_upsert` is called; `count` starts at `1` and grows by the
chunk's length; on a `ConnectionError` whose `message[1]` contains
`'Broken pipe'` the function prints and returns `0`, other connection
errors re-raise; `NotFound` and the resource-not-found
`ValidationError` are re-raised as `NotFound`; finally `count` is
returned. -/

/-- Outcome of one remote `datastore_upsert` call. -/
inductive UpsertOutcome where
  | ok
  | connError (strerror : String)
  | notFound
  | validationRidNotFound
  | validationOther
deriving DecidableEq

/-- Errors `insert_records` can raise. -/
inductive InsertErr where
  | notFound
  | connError (strerror : String)
  | validation
deriving DecidableEq

/-- `'Broken pipe' in err.message[1]`. -/
def brokenPipe (strerror : String) : Bool := strContains strerror "Broken pipe"

/-- The `for chunk in ...` loop of `insert_records`. -/
def insertLoop (upsert : List α → UpsertOutcome) (count : Nat) :
    List (List α) → Except InsertErr Nat
  | [] => Except.ok count
  | ch :: rest =>
    match upsert ch with
    | .ok => insertLoop upsert (count + ch.length) rest
    | .connError msg =>
        if brokenPipe msg then Except.ok 0
        else Except.error (InsertErr.connError msg)
    | .notFound => Except.error InsertErr.notFound
    | .validationRidNotFound => Except.error InsertErr.notFound
    | .validationOther => Except.error InsertErr.validation

/-- `insert_records` from ckanutils.py, with the remote
`datastore_upsert` as an outcome-valued parameter. -/
def insert_records (upsert : List α → UpsertOutcome) (records : List α)
    (chunksize start : Nat) (stop : Option Nat) : Except InsertErr Nat :=
  insertLoop upsert 1 (chunk records chunksize start stop)

/-- C3: `count` is initialised to `1`, so on a fully successful run
`insert_records` returns one more than the number of records written:
for the single record `[7]` (one record sent in one batch) it returns
`2`, not `1` as its own docstring ("Number of records inserted") and
the spec state. -/
theorem insert_records_count_off_by_one :
    insert_records (fun (_ : List Nat) => UpsertOutcome.ok) [7] 0 0 none =
      Except.ok 2 ∧ ([7] : List Nat).length = 1 := by
  constructor
  · simp [insert_records, chunk, islice, insertLoop]
  · rfl

theorem insertLoop_connError (upsert : List α → UpsertOutcome)
    (count : Nat) (cs : List (List α)) (i : Nat) (chi : List α)
    (msg : String) (hch : cs[i]? = some chi)
    (hok : ∀ j ch, j < i → cs[j]? = some ch → upsert ch = UpsertOutcome.ok)
    (hfail : upsert chi = UpsertOutcome.connError msg) :
    insertLoop upsert count cs =
      if brokenPipe msg then Except.ok 0
      else Except.error (InsertErr.connError msg) := by
  induction cs generalizing i count with
  | nil => simp at hch
  | cons ch rest ih =>
      match i with
      | 0 =>
          simp only [List.getElem?_cons_zero, Option.some.injEq] at hch
          subst hch
          simp [insertLoop, hfail]
      | j + 1 =>
          have hok0 : upsert ch = UpsertOutcome.ok :=
            hok 0 ch (Nat.succ_pos j) (by simp)
          simp only [List.getElem?_cons_succ] at hch
          rw [insertLoop, hok0]
          exact ih _ _ hch fun k c hk hc =>
            hok (k + 1) c (Nat.succ_lt_succ hk) (by simpa using hc)

/-- C7: if, during an `insert_records` run, the first failing
`datastore_upsert` call fails with a connection error, then the call
returns `0` without raising when the error message contains
`'Broken pipe'` (the oversized-payload signal), and the connection
error propagates for any other message; this holds for every
chunksize. -/
theorem insert_records_broken_pipe (upsert : List α → UpsertOutcome)
    (records : List α) (chunksize start : Nat) (stop : Option Nat)
    (i : Nat) (chi : List α) (msg : String)
    (hch : (chunk records chunksize start stop)[i]? = some chi)
    (hok : ∀ j ch, j < i → (chunk records chunksize start stop)[j]? = some ch →
      upsert ch = UpsertOutcome.ok)
    (hfail : upsert chi = UpsertOutcome.connError msg) :
    (brokenPipe msg = true →
      insert_records upsert records chunksize start stop = Except.ok 0) ∧
      (brokenPipe msg = false →
        insert_records upsert records chunksize start stop =
          Except.error (InsertErr.connError msg)) := by
  have h := insertLoop_connError upsert 1 (chunk records chunksize start stop)
    i chi msg hch hok hfail
  constructor
  · intro hb
    rw [insert_records, h, if_pos hb]
  · intro hb
    rw [insert_records, h, if_neg (by simp [hb])]

/-- Concrete instance for C7: an oversized-payload connection error on
the only batch returns `0`; a different connection error propagates. -/
theorem insert_records_broken_pipe_witness :
    insert_records (fun (_ : List Nat) =>
        UpsertOutcome.connError "(32, Broken pipe)") [5] 0 0 none =
      Except.ok 0 ∧
      insert_records (fun (_ : List Nat) =>
          UpsertOutcome.connError "Connection reset") [5] 0 0 none =
        Except.error (InsertErr.connError "Connection reset") := by
  constructor
  · exact (insert_records_broken_pipe _ [5] 0 0 none 0 [5]
      "(32, Broken pipe)" (by simp [chunk, islice])
      (fun j ch hj _ => absurd hj (Nat.not_lt_zero j)) rfl).1 (by decide)
  · exact (insert_records_broken_pipe _ [5] 0 0 none 0 [5]
      "Connection reset" (by simp [chunk, islice])
      (fun j ch hj _ => absurd hj (Nat.not_lt_zero j)) rfl).2 (by decide)

/-! ### `CKAN.delete_table` (ckanutils.py, lines 185-233)

`datastore_delete` is called; `NotFound` prints a message and yields
`None`; a `ValidationError` whose `error_dict` has a `'read-only'`
key prints the read-only report plus "set force to True and try
again" and yields `None`; a resource-not-found `ValidationError`
prints and yields `None`; any other `ValidationError` re-raises. -/

/-- Outcome of the remote `datastore_delete` call.  `ok` carries the
value the remote returns (the original filters). -/
inductive DeleteOutcome (α : Type) where
  | ok (result : α)
  | notFound
  | validationReadOnly
  | validationRidNotFound
  | validationOther
deriving DecidableEq

/-- Errors `delete_table` can raise. -/
inductive DeleteErr where
  | validation
deriving DecidableEq

/-- Console reports `delete_table` issues (modelled as tags). -/
inductive DelMsg where
  | deleting
  | tableNotFound
  | readOnly
  | setForceAndRetry
deriving DecidableEq

/-- `delete_table` from ckanutils.py: the printed reports and the
returned/raised result. -/
def delete_table (outcome : DeleteOutcome α) (verbose : Bool) :
    List DelMsg × Except DeleteErr (Option α) :=
  let pre := if verbose then [DelMsg.deleting] else []
  match outcome with
  | .ok r => (pre, Except.ok (some r))
  | .notFound => (pre ++ [DelMsg.tableNotFound], Except.ok none)
  | .validationReadOnly =>
      (pre ++ [DelMsg.readOnly, DelMsg.setForceAndRetry], Except.ok none)
  | .validationRidNotFound => (pre ++ [DelMsg.tableNotFound], Except.ok none)
  | .validationOther => (pre, Except.error DeleteErr.validation)

/-- C8: against a read-only table (remote rejects with a validation
error carrying a `read-only` key) `delete_table` returns `None`
without raising and reports that `force` must be set to retry; when
the table is absent it likewise returns `None`. -/
theorem delete_table_soft_failures (α : Type) (verbose : Bool) :
    (delete_table (DeleteOutcome.validationReadOnly : DeleteOutcome α)
        verbose).2 = Except.ok none ∧
      DelMsg.setForceAndRetry ∈
        (delete_table (DeleteOutcome.validationReadOnly : DeleteOutcome α)
          verbose).1 ∧
      (delete_table (DeleteOutcome.notFound : DeleteOutcome α) verbose).2 =
        Except.ok none := by
  cases verbose <;> simp [delete_table]

/-! ### `CKAN.get_hash` (ckanutils.py, lines 304-359)

If `hash_table_pack` is falsy, raise `NotFound{item: package}`; else
if `hash_table_id` is falsy, raise `NotFound{item: resource}`; else
run `datastore_search` filtered on the resource id.  A `NotFound` from
the search becomes `NotFound{item: datastore}`; the
resource-not-found `ValidationError` becomes a message-only
`NotFound`; other `ValidationError`s re-raise; an `IndexError` on
`result['records'][0]` (no entry for this id) prints and returns
`None`; otherwise the stored hash string is returned. -/

/-- `NotFound` sub-kinds used by the ledger lookup. -/
inductive NFItem where
  | package
  | resource
  | datastore
deriving DecidableEq

/-- Errors `get_hash` can raise. -/
inductive GetHashErr where
  | notFoundItem (item : NFItem)
  | notFoundFilestore
  | validation
deriving DecidableEq

/-- Outcome of the remote `datastore_search` call; `ok` carries the
`'hash'` column of the returned records. -/
inductive SearchOutcome where
  | ok (hashes : List String)
  | notFound
  | validationRidNotFound
  | validationOther
deriving DecidableEq

/-- Python truthiness of an optional string (`None` and `''` are
falsy). -/
def truthyStr : Option String → Bool
  | none => false
  | some s => decide (s ≠ "")

/-- `get_hash` from ckanutils.py.  `pack` is the truthiness of
`self.hash_table_pack`, `hash_table_id` is `self.hash_table_id`. -/
def get_hash (pack : Bool) (hash_table_id : Option String)
    (search : SearchOutcome) : Except GetHashErr (Option String) :=
  if ¬pack then Except.error (GetHashErr.notFoundItem NFItem.package)
  else if ¬truthyStr hash_table_id then
    Except.error (GetHashErr.notFoundItem NFItem.resource)
  else
    match search with
    | .ok hashes =>
        match hashes.head? with
        | some h => Except.ok (some h)
        | none => Except.ok none
    | .notFound => Except.error (GetHashErr.notFoundItem NFItem.datastore)
    | .validationRidNotFound => Except.error GetHashErr.notFoundFilestore
    | .validationOther => Except.error GetHashErr.validation

/-- C6: `get_hash` is a tri-state lookup: missing ledger package
raises `NotFound{item: package}`; package present but no
resource/datastore table raises `NotFound{item: resource}` resp.
`NotFound{item: datastore}`; ledger present but no entry for the id
returns `None` without raising; otherwise the stored hash is
returned. -/
theorem get_hash_tristate (tid : Option String) (search : SearchOutcome)
    (hh : String) (rest : List String) :
    get_hash false tid search =
        Except.error (GetHashErr.notFoundItem NFItem.package) ∧
      get_hash true none search =
        Except.error (GetHashErr.notFoundItem NFItem.resource) ∧
      (truthyStr tid = true →
        get_hash true tid SearchOutcome.notFound =
          Except.error (GetHashErr.notFoundItem NFItem.datastore)) ∧
      (truthyStr tid = true →
        get_hash true tid (SearchOutcome.ok []) = Except.ok none) ∧
      (truthyStr tid = true →
        get_hash true tid (SearchOutcome.ok (hh :: rest)) =
          Except.ok (some hh)) := by
  refine ⟨by simp [get_hash], by simp [get_hash, truthyStr], ?_, ?_, ?_⟩ <;>
    intro ht <;> simp [get_hash, ht]

/-- Concrete instance for C6 at ledger id `"tid"`, exercising the
hypotheses of `get_hash_tristate`. -/
theorem get_hash_tristate_witness :
    get_hash true (some "tid") SearchOutcome.notFound =
        Except.error (GetHashErr.notFoundItem NFItem.datastore) ∧
      get_hash true (some "tid") (SearchOutcome.ok []) = Except.ok none ∧
      get_hash true (some "tid") (SearchOutcome.ok ["abc"]) =
        Except.ok (some "abc") :=
  ⟨(get_hash_tristate (some "tid") SearchOutcome.notFound "abc" []).2.2.1
      (by decide),
    (get_hash_tristate (some "tid") SearchOutcome.notFound "abc" []).2.2.2.1
      (by decide),
    (get_hash_tristate (some "tid") SearchOutcome.notFound "abc" []).2.2.2.2
      (by decide)⟩

/-! ### The datastore `update` workflow (ckanutils/datastorer.py, lines 146-224)

The workflow fetches the resource, looks up the ledger hash
(`ckan.get_hash`), lazily creating the ledger package / resource /
table on a `NotFound` with the corresponding `item` and retrying the
lookup, hashes the fetched file, computes
`changed = new_hash != old_hash if old_hash else True`, prints, and
skips with `sys.exit(0)` when `not (changed or force)`.  Otherwise it
runs `update_resource` (datastorer.py lines 37-83: optional
`delete_table` when no primary key, then `create_table` and
`insert_records`; returns `False` without touching the remote tables
when no parser plugin matches the file extension), then writes the
ledger (`update_hash_table`, an upsert of the new hash) only when
`updated and changed`, and exits `1` when not updated.

Remote call behaviours are parameters of the run configuration; the
embedding returns the trace of remote calls plus the exit outcome. -/

/-- Remote calls the workflow can perform. -/
inductive Ev where
  | fetch
  | getHash
  | hashFile
  | packageCreate
  | createResource
  | createTable (onHashTable : Bool)
  | deleteTable
  | insertRecords (onHashTable : Bool)
  | updateHashTable (newHash : String)
deriving DecidableEq

/-- How a run of the `update` command ends: `sys.exit(code)`, an
uncaught exception, or falling off the end (success). -/
inductive Outcome where
  | exit (code : Nat)
  | raised
  | finished
deriving DecidableEq

/-- Behaviour of the environment for one `update` run. -/
structure SyncCfg where
  /-- `fetch_resource` succeeds (else `NotFound`/`NotAuthorized`). -/
  fetchOk : Bool
  /-- result of the first `ckan.get_hash` call. -/
  getHash1 : Except GetHashErr (Option String)
  /-- result of the `ckan.get_hash` retry after ledger creation. -/
  getHash2 : Option String
  /-- the digest `utils.hash_file` computes for the fetched file. -/
  newHash : String
  /-- the `force` flag. -/
  force : Bool
  /-- `update_resource` finds a parser plugin for the file. -/
  parserFound : Bool
  /-- a primary key is configured (truthy `primary_key`). -/
  primaryKey : Bool
  /-- `delete_table` does not raise. -/
  deleteOk : Bool
  /-- `create_table` does not raise. -/
  createOk : Bool
  /-- `insert_records` does not raise. -/
  insertOk : Bool

/-- `changed = new_hash != old_hash if old_hash else True`. -/
def changedOf : Option String → String → Bool
  | none, _ => true
  | some h, newHash => if h = "" then true else decide (newHash ≠ h)

/-- The tail of the `update` workflow from the hash comparison on
(datastorer.py lines 198-219), including `update_resource`. -/
def updateTail (cfg : SyncCfg) (pre : List Ev) (oldHash : Option String) :
    List Ev × Outcome :=
  let evs0 := pre ++ [Ev.hashFile]
  let changed := changedOf oldHash cfg.newHash
  if ¬(changed || cfg.force) then (evs0, Outcome.exit 0)
  else if ¬cfg.parserFound then (evs0, Outcome.exit 1)
  else
    let delEvs := if ¬cfg.primaryKey then [Ev.deleteTable] else []
    if ¬cfg.primaryKey && ¬cfg.deleteOk then
      (evs0 ++ [Ev.deleteTable], Outcome.raised)
    else if ¬cfg.createOk then
      (evs0 ++ delEvs ++ [Ev.createTable false], Outcome.raised)
    else if ¬cfg.insertOk then
      (evs0 ++ delEvs ++ [Ev.createTable false, Ev.insertRecords false],
        Outcome.raised)
    else
      let upEvs := evs0 ++ delEvs ++
        [Ev.createTable false, Ev.insertRecords false]
      if changed then
        (upEvs ++ [Ev.updateHashTable cfg.newHash], Outcome.finished)
      else (upEvs, Outcome.finished)

/-- The `update` command from ckanutils/datastorer.py. -/
def update (cfg : SyncCfg) : List Ev × Outcome :=
  if ¬cfg.fetchOk then ([Ev.fetch], Outcome.exit 1)
  else
    match cfg.getHash1 with
    | Except.ok oldHash => updateTail cfg [Ev.fetch, Ev.getHash] oldHash
    | Except.error (GetHashErr.notFoundItem item) =>
        let pkgEvs := if item = NFItem.package then [Ev.packageCreate] else []
        let resEvs :=
          if item = NFItem.package ∨ item = NFItem.resource then
            [Ev.createResource]
          else []
        updateTail cfg
          ([Ev.fetch, Ev.getHash] ++ pkgEvs ++ resEvs ++
            [Ev.createTable true, Ev.getHash])
          cfg.getHash2
    | Except.error _ => ([Ev.fetch, Ev.getHash], Outcome.raised)

/-- The calls C1 forbids on a skipped sync: table deletion/creation
and record upsert/insert (including the ledger upsert). -/
def isUploadCall : Ev → Bool
  | Ev.createTable _ => true
  | Ev.deleteTable => true
  | Ev.insertRecords _ => true
  | Ev.updateHashTable _ => true
  | _ => false

/-- No table create/delete or record write occurs in the trace. -/
def noUploadCalls (evs : List Ev) : Bool := evs.all fun e => !isUploadCall e

/-- A ledger write (`update_hash_table`) occurs nowhere in the
trace. -/
def noLedgerWrite (evs : List Ev) : Bool :=
  evs.all fun e =>
    match e with
    | Ev.updateHashTable _ => false
    | _ => true

/-- C1: when the ledger's stored hash equals the freshly computed
hash (a real digest, hence non-empty) and `force` is false, the
workflow exits successfully without calling `create_table`,
`delete_table`, or any record upsert/insert. -/
theorem sync_skip_no_upload (cfg : SyncCfg)
    (hfetch : cfg.fetchOk = true)
    (hhash : cfg.getHash1 = Except.ok (some cfg.newHash))
    (hne : cfg.newHash ≠ "")
    (hforce : cfg.force = false) :
    (update cfg).2 = Outcome.exit 0 ∧ noUploadCalls (update cfg).1 = true := by
  rw [update, hfetch, hhash]
  have hch : changedOf (some cfg.newHash) cfg.newHash = false := by
    simp [changedOf, hne]
  unfold updateTail
  simp only [hch, hforce, Bool.or_self, Bool.not_false, if_pos, if_true]
  constructor
  · rfl
  · rfl

/-- Concrete instance for C1: stored and computed hash both `"abc"`,
`force = false`. -/
theorem sync_skip_no_upload_witness :
    (update ⟨true, Except.ok (some "abc"), none, "abc", false, true, false,
        true, true, true⟩).2 = Outcome.exit 0 ∧
      noUploadCalls (update ⟨true, Except.ok (some "abc"), none, "abc",
        false, true, false, true, true, true⟩).1 = true :=
  sync_skip_no_upload _ rfl rfl (by decide) rfl

/-- C2 counterexample: a run with `force = true`, an unchanged hash
(stored = computed = `"h"`), and a fully successful upload ends in
success and performs the upload, but performs no ledger write —
`update_hash_table` is guarded by `updated and changed`, not by
`updated` alone. -/
theorem sync_force_counterexample :
    (update ⟨true, Except.ok (some "h"), none, "h", true, true, false,
        true, true, true⟩).2 = Outcome.finished ∧
      Ev.createTable false ∈ (update ⟨true, Except.ok (some "h"), none, "h",
        true, true, false, true, true, true⟩).1 ∧
      Ev.insertRecords false ∈ (update ⟨true, Except.ok (some "h"), none,
        "h", true, true, false, true, true, true⟩).1 ∧
      noLedgerWrite (update ⟨true, Except.ok (some "h"), none, "h", true,
        true, false, true, true, true⟩).1 = true := by
  refine ⟨?_, ?_, ?_, ?_⟩ <;> decide

/-- C2 (amended): with `force = true` the upload is performed
regardless of the hash comparison; on success the ledger write
happens exactly when the computed hash differs from the stored one,
and when it does not happen the stored entry already equals the newly
computed hash. -/
theorem sync_force_law (cfg : SyncCfg) (oldHash : Option String)
    (hfetch : cfg.fetchOk = true)
    (hhash : cfg.getHash1 = Except.ok oldHash)
    (hforce : cfg.force = true)
    (hparser : cfg.parserFound = true)
    (hdel : cfg.deleteOk = true) (hcr : cfg.createOk = true)
    (hins : cfg.insertOk = true) :
    (update cfg).2 = Outcome.finished ∧
      Ev.createTable false ∈ (update cfg).1 ∧
      Ev.insertRecords false ∈ (update cfg).1 ∧
      (changedOf oldHash cfg.newHash = true →
        Ev.updateHashTable cfg.newHash ∈ (update cfg).1) ∧
      (changedOf oldHash cfg.newHash = false →
        noLedgerWrite (update cfg).1 = true ∧ oldHash = some cfg.newHash) := by
  rw [update, hfetch, hhash]
  have heq : changedOf oldHash cfg.newHash = false → oldHash = some cfg.newHash := by
    intro hc
    match oldHash with
    | none => simp [changedOf] at hc
    | some h =>
        simp only [changedOf] at hc
        by_cases hh : h = ""
        · rw [if_pos hh] at hc
          exact absurd hc (by simp)
        · rw [if_neg hh, decide_eq_false_iff_not, not_not] at hc
          rw [hc]
  unfold updateTail
  simp only [hforce, Bool.or_true, Bool.not_true, hparser, hdel, hcr, hins,
    Bool.and_false, Bool.not_false, if_neg, ite_false, if_pos, ite_true]
  by_cases hch : changedOf oldHash cfg.newHash
  · by_cases hpk : cfg.primaryKey <;> simp [hch, hpk, noLedgerWrite]
  · have hch2 : changedOf oldHash cfg.newHash = false := by simpa using hch
    have hconst := heq hch2
    subst hconst
    by_cases hpk : cfg.primaryKey <;> simp [hch2, hpk, noLedgerWrite]

/-- Concrete instance for C2 (amended): `force = true` with a changed
hash uploads and writes the new hash to the ledger. -/
theorem sync_force_law_witness :
    (update ⟨true, Except.ok (some "old"), none, "new", true, true, false,
        true, true, true⟩).2 = Outcome.finished ∧
      Ev.updateHashTable "new" ∈ (update ⟨true, Except.ok (some "old"),
        none, "new", true, true, false, true, true, true⟩).1 :=
  ⟨(sync_force_law _ (some "old") rfl rfl rfl rfl rfl rfl rfl).1,
    (sync_force_law _ (some "old") rfl rfl rfl rfl rfl rfl rfl).2.2.2.1
      (by decide)⟩

end Ckanutils
